import Mathlib

/-!
Verification development for the gif-efitor repository.

The file shallowly embeds the core of the source:

* `src/gif/utils.ts` — the streaming compositor `loadFrames`, the encode
  assembler `beginFile`, and the palette indexing step `encodeImage`;
* `src/gif.ts` — the older array-based compositor `loadFrames` (embedded
  here as `loadFramesTs`) with its filter-based restore-point selection;
* `src/file-editor.tsx` — the `download` drop-merge loop and the
  ArrowDown/ArrowUp frame-state updaters inside `onKeyDown`.

Canvases are embedded as functions from coordinates to an optional packed
24-bit color (`none` models a fully transparent RGBA pixel, which is what
`clearRect` writes and what `drawImage` treats as not covering the
destination).  The external codec (omggif) is abstracted as two parameters:
`db i scratch` is the scratch buffer after `decodeAndBlitFrameRGBA(i, …)`,
and `rawPal i` is the palette byte array it fills for frame `i`.
-/

namespace GifEditor

/-- Pixel of an RGBA canvas: `none` is transparent (alpha 0), `some c` an
opaque packed 24-bit color. -/
abbrev Pixel := Option Nat

/-- Full-canvas bitmap, addressed by x and y. -/
abbrev Canvas := Nat → Nat → Pixel

/-- Blank canvas: a fresh OffscreenCanvas / ImageData is fully transparent. -/
def blankCanvas : Canvas := fun _ _ => none

/-- Frame descriptor returned by `gifReader.frameInfo(i)` (type
`GifFrameInfo` in `src/gif/utils.ts` and `src/gif.ts`). -/
structure GifFrameInfo where
  x : Nat
  y : Nat
  width : Nat
  height : Nat
  has_local_palette : Bool
  palette_size : Nat
  transparent_index : Option Nat
  interlaced : Bool
  delay : Nat
  disposal : Nat
deriving Repr, DecidableEq

/-- Membership test for the frame sub-rectangle declared by a descriptor. -/
def inRect (info : GifFrameInfo) (x y : Nat) : Bool :=
  decide (info.x ≤ x) && decide (x < info.x + info.width) &&
  decide (info.y ≤ y) && decide (y < info.y + info.height)

/-- Embedding of `ctx.clearRect(info.x, info.y, info.width, info.height)`:
pixels in the rectangle become transparent, all others keep their value. -/
def clearRect (info : GifFrameInfo) (c : Canvas) : Canvas := fun x y =>
  if inRect info x y then none else c x y

/-- Embedding of `ctx.putImageData(src, 0, 0, info.x, info.y, info.width,
info.height)`: the dirty rectangle of the source replaces the destination
pixels verbatim (alpha included); pixels outside are untouched. -/
def putImageData (src : Canvas) (info : GifFrameInfo) (dst : Canvas) : Canvas := fun x y =>
  if inRect info x y then src x y else dst x y

/-- Embedding of `ctx.drawImage(src, 0, 0)` with source-over compositing of
fully opaque/transparent pixels: opaque source pixels replace the
destination, transparent ones leave it unchanged. -/
def drawImage (src : Canvas) (dst : Canvas) : Canvas := fun x y =>
  match src x y with
  | some c => some c
  | none => dst x y

/-- Embedding of `convertPalette` (identical in `utils.ts` and `gif.ts`):
packs consecutive byte triples into 24-bit colors, red most significant. -/
def convertPalette (bytes : List Nat) : List Nat :=
  (List.range (bytes.length / 3)).map fun i =>
    bytes.getD (3 * i) 0 * 65536 + bytes.getD (3 * i + 1) 0 * 256 +
    bytes.getD (3 * i + 2) 0

/-- Frame record emitted by `loadFrames` in `src/gif/utils.ts` (type
`GifFrameData` there); `data` is the snapshot taken by
`createImageBitmap(canvas)`. -/
structure GifFrameData where
  index : Nat
  delay : Nat
  data : Canvas
  isPaletteGlobal : Bool
  palette : List Nat

/-- Failures of the two compositor variants: `noRestorePoint` is the
`throw new Error("No previous frame to restore")` in `utils.ts`;
`emptyRestoreCandidates` is the implicit TypeError in `gif.ts` when the
filtered restore-point list is empty and its last element is dereferenced. -/
inductive CompositeError where
  | noRestorePoint
  | emptyRestoreCandidates
deriving Repr, DecidableEq

/-- Loop state of `loadFrames` in `src/gif/utils.ts`: the shared canvas,
the reused scratch `ImageData`, `prevFrameInfo` and `prevRestorePoint`. -/
structure CompState where
  canvas : Canvas
  scratch : Canvas
  prevInfo : Option GifFrameInfo
  rp : Option GifFrameData

/-- Initial state of the `utils.ts` compositor loop. -/
def initState : CompState :=
  { canvas := blankCanvas, scratch := blankCanvas, prevInfo := none, rp := none }

/-- Disposal switch at the top of the `utils.ts` loop body: applies the
previous frame descriptor's disposal method to the shared canvas.
Disposal 0, 1 and unknown values leave the canvas alone, 2 clears the
previous sub-rectangle, 3 draws the restore point over the canvas and
fails if none exists. -/
def applyDisposal (s : CompState) : Except CompositeError Canvas :=
  match s.prevInfo with
  | none => .ok s.canvas
  | some p =>
    match p.disposal with
    | 0 => .ok s.canvas
    | 1 => .ok s.canvas
    | 2 => .ok (clearRect p s.canvas)
    | 3 =>
      match s.rp with
      | none => .error .noRestorePoint
      | some rp => .ok (drawImage rp.data s.canvas)
    | _ => .ok s.canvas

/-- One iteration of the `utils.ts` `loadFrames` loop for frame `i`:
disposal of the previous frame, `decodeAndBlitFrameRGBA` into the scratch
buffer (abstracted as `db`), `putImageData` of the dirty sub-rectangle,
snapshot into a `GifFrameData`, then the restore-point and previous-info
updates after the `yield`. -/
def compositeStep (db : Nat → Canvas → Canvas) (rawPal : Nat → List Nat)
    (s : CompState) (i : Nat) (info : GifFrameInfo) :
    Except CompositeError (GifFrameData × CompState) :=
  match applyDisposal s with
  | .error e => .error e
  | .ok canvas1 =>
    let scratch1 := db i s.scratch
    let canvas2 := putImageData scratch1 info canvas1
    let fd : GifFrameData :=
      { index := i, delay := info.delay, data := canvas2,
        isPaletteGlobal := !info.has_local_palette,
        palette := convertPalette (rawPal i) }
    let rp1 := if s.rp.isNone || info.disposal != 3 then some fd else s.rp
    .ok (fd, { canvas := canvas2, scratch := scratch1, prevInfo := some info, rp := rp1 })

/-- Recursion over the remaining frame descriptors, carrying the loop
index and state; returns the emitted frames and the final state. -/
def loadFramesAux (db : Nat → Canvas → Canvas) (rawPal : Nat → List Nat)
    (i : Nat) (s : CompState) :
    List GifFrameInfo → Except CompositeError (List GifFrameData × CompState)
  | [] => .ok ([], s)
  | info :: rest =>
    match compositeStep db rawPal s i info with
    | .error e => .error e
    | .ok (fd, s1) =>
      match loadFramesAux db rawPal (i + 1) s1 rest with
      | .error e => .error e
      | .ok (fds, s2) => .ok (fd :: fds, s2)

/-- Embedding of `loadFrames` from `src/gif/utils.ts`: the sequence of
frames the async generator yields (or the error that aborts it). -/
def loadFrames (db : Nat → Canvas → Canvas) (rawPal : Nat → List Nat)
    (infos : List GifFrameInfo) : Except CompositeError (List GifFrameData) :=
  (loadFramesAux db rawPal 0 initState infos).map Prod.fst

/-! Embedding of the older compositor `loadFrames` in `src/gif.ts`.  Its
result entries are `{...frameInfo, index: i, data}` plus `paletteLocal` or
`paletteGlobal`, and its disposal-3 branch recomputes the restore point by
filtering the already-composited frames. -/

/-- Result entry of `loadFrames` in `src/gif.ts` (type `GifFrameData`
there): the spread of the frame descriptor plus index, bitmap snapshot and
the palette stored under one of two optional fields. -/
structure GifTsFrameData where
  info : GifFrameInfo
  index : Nat
  data : Canvas
  paletteGlobal : Option (List Nat)
  paletteLocal : Option (List Nat)

/-- Loop state of `loadFrames` in `src/gif.ts`: shared canvas, scratch
`ImageData`, `prevFrameInfo` and the `result` array built so far. -/
structure GifTsState where
  canvas : Canvas
  scratch : Canvas
  prevInfo : Option GifFrameInfo
  result : List GifTsFrameData

/-- Initial state of the `src/gif.ts` compositor loop. -/
def initTsState : GifTsState :=
  { canvas := blankCanvas, scratch := blankCanvas, prevInfo := none, result := [] }

/-- Embedding of `result.filter((frame) => frame.index === 0 ||
frame.disposal !== 3)` from the disposal-3 branch of `src/gif.ts`. -/
def restoreCandidates (result : List GifTsFrameData) : List GifTsFrameData :=
  result.filter fun f => f.index == 0 || f.info.disposal != 3

/-- Disposal switch of the `src/gif.ts` loop.  The disposal-3 branch takes
the last filtered restore candidate; dereferencing the last element of an
empty array is the TypeError modelled by `emptyRestoreCandidates`. -/
def gifTsApplyDisposal (s : GifTsState) : Except CompositeError Canvas :=
  match s.prevInfo with
  | none => .ok s.canvas
  | some p =>
    match p.disposal with
    | 0 => .ok s.canvas
    | 1 => .ok s.canvas
    | 2 => .ok (clearRect p s.canvas)
    | 3 =>
      match (restoreCandidates s.result).getLast? with
      | none => .error .emptyRestoreCandidates
      | some f => .ok (drawImage f.data s.canvas)
    | _ => .ok s.canvas

/-- One iteration of the `src/gif.ts` `loadFrames` loop for frame `i`:
disposal, decode into scratch, `putImageData`, then `result[i] =
{...frameInfo, index: i, data}` with the palette stored under
`paletteLocal` or `paletteGlobal` according to `has_local_palette`. -/
def gifTsStep (db : Nat → Canvas → Canvas) (rawPal : Nat → List Nat)
    (s : GifTsState) (i : Nat) (info : GifFrameInfo) :
    Except CompositeError GifTsState :=
  match gifTsApplyDisposal s with
  | .error e => .error e
  | .ok canvas1 =>
    let scratch1 := db i s.scratch
    let canvas2 := putImageData scratch1 info canvas1
    let fd : GifTsFrameData :=
      { info := info, index := i, data := canvas2,
        paletteLocal :=
          if info.has_local_palette then some (convertPalette (rawPal i)) else none,
        paletteGlobal :=
          if info.has_local_palette then none else some (convertPalette (rawPal i)) }
    .ok { canvas := canvas2, scratch := scratch1, prevInfo := some info,
          result := s.result ++ [fd] }

/-- Recursion over the remaining descriptors for the `src/gif.ts` loop;
the final `result` array is returned when the loop ends. -/
def loadFramesTsAux (db : Nat → Canvas → Canvas) (rawPal : Nat → List Nat)
    (i : Nat) (s : GifTsState) :
    List GifFrameInfo → Except CompositeError (List GifTsFrameData)
  | [] => .ok s.result
  | info :: rest =>
    match gifTsStep db rawPal s i info with
    | .error e => .error e
    | .ok s1 => loadFramesTsAux db rawPal (i + 1) s1 rest

/-- Embedding of `loadFrames` from `src/gif.ts`. -/
def loadFramesTs (db : Nat → Canvas → Canvas) (rawPal : Nat → List Nat)
    (infos : List GifFrameInfo) : Except CompositeError (List GifTsFrameData) :=
  loadFramesTsAux db rawPal 0 initTsState infos

/-- Projection of a `src/gif.ts` result entry onto the fields a
`src/gif/utils.ts` frame record carries. -/
def projTs (f : GifTsFrameData) : GifFrameData :=
  { index := f.index, delay := f.info.delay, data := f.data,
    isPaletteGlobal := f.paletteLocal.isNone,
    palette := f.paletteLocal.getD (f.paletteGlobal.getD []) }

/-! Embedding of the palette indexing step `encodeImage` (identical in
`src/gif/utils.ts` and `src/gif.ts`) and of the encode assembler
`beginFile` from `src/gif/utils.ts`. -/

/-- RGBA components of one pixel of an `ImageData`. -/
abbrev RGBA := Nat × Nat × Nat × Nat

/-- Embedding of an `ImageData`: dimensions plus one RGBA entry per pixel
in row-major order (the `data` array holds exactly `width * height`
pixels, four bytes each). -/
structure ImageDataM where
  width : Nat
  height : Nat
  data : List RGBA

/-- Packing `(r << 16) + (g << 8) + b` from the body of `encodeImage`. -/
def packRGB (p : RGBA) : Nat := p.1 * 65536 + p.2.1 * 256 + p.2.2.1

/-- Embedding of the `indexedColors` lookup table of `encodeImage`: the
loop `for i: indexedColors[palette[i]] = i` runs in ascending order, so a
color that occurs several times maps to its last index; a color that never
occurs is absent (`undefined`). -/
def indexOfColor (palette : List Nat) (c : Nat) : Option Nat :=
  palette.enum.foldl (fun acc p => if p.2 = c then some p.1 else acc) none

/-- Embedding of `encodeImage`: each pixel's packed color is looked up in
`indexedColors`; a missing entry yields `undefined`, which the
`Uint8Array` store coerces to `0`, and any stored value is reduced mod 256
by the `Uint8Array` element conversion. -/
def encodeImage (image : ImageDataM) (palette : List Nat) : List Nat :=
  image.data.map fun p => (indexOfColor palette (packRGB p)).getD 0 % 256

/-- RGBA value read back from one canvas pixel by `getImageData`:
transparent pixels read as four zero bytes, opaque ones as their color
components with alpha 255. -/
def pixelToRGBA : Pixel → RGBA
  | none => (0, 0, 0, 0)
  | some c => (c / 65536 % 256, c / 256 % 256, c % 256, 255)

/-- Embedding of `context.getImageData(0, 0, width, height)`: one RGBA
entry per canvas pixel in row-major order. -/
def getImageData (c : Canvas) (width height : Nat) : ImageDataM :=
  { width := width, height := height,
    data := (List.range (width * height)).map fun i => pixelToRGBA (c (i % width) (i / width)) }

/-- Metadata record produced by the decode worker (`GifMetadata` in
`src/gif/utils.ts`). -/
structure GifMetadata where
  width : Nat
  height : Nat
  frameCount : Nat
  loopCount : Nat
deriving Repr, DecidableEq

/-- One frame handed to the external `GifWriter.addFrame`: the indexed
pixel stream, the delay, and the local palette option (absent when the
frame uses the global palette). -/
structure WrittenFrame where
  pixels : List Nat
  delay : Nat
  localPalette : Option (List Nat)

/-- State of the closure returned by `beginFile` in `src/gif/utils.ts`:
the `framesRemaining` counter (an integer: the code decrements it without
any guard, so it can go below zero), the persistent writer canvas, and the
frames handed to the external codec writer so far. -/
structure Assembler where
  width : Nat
  height : Nat
  framesRemaining : Int
  canvas : Canvas
  written : List WrittenFrame

/-- Embedding of `beginFile`: the counter starts at `frameCount`, the
writer canvas starts blank and nothing has been written. -/
def beginFile (metadata : GifMetadata) : Assembler :=
  { width := metadata.width, height := metadata.height,
    framesRemaining := metadata.frameCount,
    canvas := blankCanvas, written := [] }

/-- Embedding of the `addFrame` closure of `beginFile`: draw the frame
bitmap over the persistent writer canvas, read the pixels back, index them
against the frame's palette, hand the result to the codec writer, and
decrement `framesRemaining` (unconditionally, even at or past zero). -/
def Assembler.addFrame (a : Assembler) (frame : GifFrameData) : Assembler :=
  let canvas1 := drawImage frame.data a.canvas
  let imageData := getImageData canvas1 a.width a.height
  let pixels := encodeImage imageData frame.palette
  { a with
    canvas := canvas1,
    framesRemaining := a.framesRemaining - 1,
    written := a.written ++
      [{ pixels := pixels, delay := frame.delay,
         localPalette := if frame.isPaletteGlobal then none else some frame.palette }] }

/-- Embedding of the `done` closure of `beginFile`. -/
def Assembler.done (a : Assembler) : Bool := a.framesRemaining == 0

/-- Folding a list of frames through `Assembler.addFrame`, modelling a
sequence of `addFrame` calls in order. -/
def Assembler.addFrames (a : Assembler) (frames : List GifFrameData) : Assembler :=
  frames.foldl Assembler.addFrame a

/-! Embedding of the editor operations in `src/file-editor.tsx`: the
`download` callback and the ArrowDown/ArrowUp frame-state updaters of
`onKeyDown`. -/

/-- Failure of the `download` loop: when the current frame is deleted and
no survivor has been pushed yet, `framesToSave[framesToSave.length - 1]`
is `undefined` and reading `.delay` on it throws a TypeError. -/
inductive DownloadError where
  | deleteBeforeSurvivor
deriving Repr, DecidableEq

/-- Helper for `framesToSave[framesToSave.length - 1].delay += frame.delay`:
adds a delay onto the last element of a nonempty list. -/
def addDelayToLast (d : Nat) : List GifFrameData → List GifFrameData
  | [] => []
  | [f] => [{ f with delay := f.delay + d }]
  | f :: rest => f :: addDelayToLast d rest

/-- Loop body of the `download` callback, walking frame/deleted pairs in
index order with the `framesToSave` accumulator: a deleted frame adds its
delay onto the last pushed survivor (TypeError if there is none), a kept
frame is pushed as a copy. -/
def downloadGo (acc : List GifFrameData) :
    List (GifFrameData × Bool) → Except DownloadError (List GifFrameData)
  | [] => .ok acc
  | (f, deleted) :: rest =>
    if deleted then
      match acc with
      | [] => .error .deleteBeforeSurvivor
      | _ => downloadGo (addDelayToLast f.delay acc) rest
    else downloadGo (acc ++ [f]) rest

/-- Embedding of the `download` callback: builds `framesToSave` from the
frames and their deleted marks and, on success, returns the arguments of
the `writeGifToFile` call (metadata with the surviving frame count, and
the surviving frames).  An error means the loop threw before
`writeGifToFile` ran, so no encode worker is spawned and no output buffer
is allocated. -/
def download (metadata : GifMetadata) (frames : List GifFrameData)
    (deleted : List Bool) : Except DownloadError (GifMetadata × List GifFrameData) :=
  match downloadGo [] (frames.zip deleted) with
  | .error e => .error e
  | .ok framesToSave =>
    .ok ({ metadata with frameCount := framesToSave.length }, framesToSave)

/-- Per-frame edit record of `src/file-editor.tsx` (`FrameState` there;
its optional `deleted` field reads as `false` when absent). -/
structure FrameState where
  deleted : Bool
deriving Repr, DecidableEq

/-- Failure of the frame-state updaters on an out-of-range index:
`curr[selectedFrame]` is `undefined` and reading `.deleted` throws. -/
inductive EditError where
  | undefinedAccess
deriving Repr, DecidableEq

/-- Embedding of the ArrowDown updater of `onKeyDown`: reads
`curr[i].deleted` (TypeError when `i` is out of range), returns the state
unchanged when the frame is already deleted, and otherwise replaces entry
`i` by a copy with `deleted: true`. -/
def markDeleted (states : List FrameState) (i : Nat) :
    Except EditError (List FrameState) :=
  match states.get? i with
  | none => .error .undefinedAccess
  | some fs =>
    if fs.deleted then .ok states
    else .ok (states.set i { fs with deleted := true })

/-- Embedding of the ArrowUp updater of `onKeyDown`: reads
`curr[i].deleted` (TypeError when `i` is out of range), returns the state
unchanged when the frame is not deleted, and otherwise replaces entry `i`
by a copy with `deleted: false`. -/
def markUndeleted (states : List FrameState) (i : Nat) :
    Except EditError (List FrameState) :=
  match states.get? i with
  | none => .error .undefinedAccess
  | some fs =>
    if !fs.deleted then .ok states
    else .ok (states.set i { fs with deleted := false })

/-! Shared concrete inputs for witnesses and counterexamples. -/

/-- Identity decode function: the scratch buffer is left unchanged. -/
def idDecode : Nat → Canvas → Canvas := fun _ c => c

/-- Empty codec palette output for every frame. -/
def emptyPal : Nat → List Nat := fun _ => []

/-- Concrete 1×1 frame descriptor with disposal method `None`. -/
def cinfoNone : GifFrameInfo :=
  { x := 0, y := 0, width := 1, height := 1, has_local_palette := false,
    palette_size := 1, transparent_index := none, interlaced := false,
    delay := 10, disposal := 0 }

/-- Concrete descriptor with disposal method `RestoreBackground`. -/
def cinfoBg : GifFrameInfo := { cinfoNone with delay := 20, disposal := 2 }

/-- Concrete descriptor with disposal method `RestorePrevious`. -/
def cinfoPrev : GifFrameInfo := { cinfoNone with delay := 5, disposal := 3 }

/-- Concrete frame record with the given index and delay, over a blank
bitmap and the global palette. -/
def sampleFrame (i d : Nat) : GifFrameData :=
  { index := i, delay := d, data := blankCanvas, isPaletteGlobal := true,
    palette := [] }

/-- Concrete metadata record with the given frame count. -/
def sampleMetadata (n : Nat) : GifMetadata :=
  { width := 0, height := 0, frameCount := n, loopCount := 0 }

/-! Claim C1: the restore-point update rule of `loadFrames` in
`src/gif/utils.ts`. -/

/-- C1: after compositing frame `i`, the restore point becomes frame `i`
whenever frame i's disposal method is not RestorePrevious or no restore
point existed before, and otherwise it is unchanged; on a run with
disposals [None, RestoreBackground, RestorePrevious] the restore point
after the run is the emitted frame 1 itself (index 1, not frame 0), and a
RestorePrevious disposal applied at any next frame draws exactly frame
1's bitmap over the canvas before painting. -/
theorem loadFrames_restorePoint_update :
    (∀ (db : Nat → Canvas → Canvas) (rawPal : Nat → List Nat) (s : CompState)
        (i : Nat) (info : GifFrameInfo) (fd : GifFrameData) (s1 : CompState),
        compositeStep db rawPal s i info = .ok (fd, s1) →
        ((info.disposal ≠ 3 ∨ s.rp = none) → s1.rp = some fd) ∧
        (info.disposal = 3 → s.rp ≠ none → s1.rp = s.rp))
    ∧ (∀ (db : Nat → Canvas → Canvas) (rawPal : Nat → List Nat)
        (i0 i1 i2 : GifFrameInfo),
        i0.disposal = 0 → i1.disposal = 2 → i2.disposal = 3 →
        ∃ (l : List GifFrameData) (sfin : CompState) (fd1 : GifFrameData),
          loadFramesAux db rawPal 0 initState [i0, i1, i2] = .ok (l, sfin) ∧
          l.get? 1 = some fd1 ∧ fd1.index = 1 ∧ sfin.rp = some fd1 ∧
          ∀ (i3 : GifFrameInfo), ∃ (fd3 : GifFrameData) (s3 : CompState),
            compositeStep db rawPal sfin 3 i3 = .ok (fd3, s3) ∧
            fd3.data = putImageData (db 3 sfin.scratch) i3
              (drawImage fd1.data sfin.canvas)) := by
  constructor
  · intro db rawPal s i info fd s1 h
    rw [compositeStep] at h
    cases hd : applyDisposal s with
    | error e => rw [hd] at h; cases h
    | ok c1 =>
      rw [hd] at h
      simp only [Except.ok.injEq, Prod.mk.injEq] at h
      obtain ⟨hfd, hs1⟩ := h
      constructor
      · intro hcase
        rw [← hs1]
        have hcond : (s.rp.isNone || info.disposal != 3) = true := by
          rcases hcase with h3 | hnone
          · simp [h3]
          · simp [hnone]
        simp only [hcond, if_true]
        rw [hfd]
      · intro h3 hsome
        rw [← hs1]
        have hcond : (s.rp.isNone || info.disposal != 3) = false := by
          rcases hrp : s.rp with _ | r
          · exact absurd hrp hsome
          · simp [h3]
        rw [hcond]
        simp
  · intro db rawPal i0 i1 i2 h0 h1 h2
    obtain ⟨x0, y0, w0, ht0, lp0, ps0, ti0, il0, d0, disp0⟩ := i0
    obtain ⟨x1, y1, w1, ht1, lp1, ps1, ti1, il1, d1, disp1⟩ := i1
    obtain ⟨x2, y2, w2, ht2, lp2, ps2, ti2, il2, d2, disp2⟩ := i2
    simp only at h0 h1 h2
    subst h0; subst h1; subst h2
    refine ⟨_, _, _, rfl, rfl, rfl, rfl, ?_⟩
    intro i3
    exact ⟨_, _, rfl, rfl⟩

/-- Witness for C1: both parts applied at concrete inputs. -/
theorem loadFrames_restorePoint_update_witness :
    (∃ (fd : GifFrameData) (s1 : CompState),
        compositeStep idDecode emptyPal initState 0 cinfoNone = .ok (fd, s1) ∧
        s1.rp = some fd)
    ∧ ∃ (l : List GifFrameData) (sfin : CompState) (fd1 : GifFrameData),
        loadFramesAux idDecode emptyPal 0 initState [cinfoNone, cinfoBg, cinfoPrev] =
          .ok (l, sfin) ∧
        l.get? 1 = some fd1 ∧ fd1.index = 1 ∧ sfin.rp = some fd1 := by
  constructor
  · cases hstep : compositeStep idDecode emptyPal initState 0 cinfoNone with
    | error e => cases hstep
    | ok pr =>
      refine ⟨pr.1, pr.2, rfl, ?_⟩
      have h := (loadFrames_restorePoint_update.1 idDecode emptyPal initState 0
        cinfoNone pr.1 pr.2 hstep).1 (Or.inr rfl)
      exact h
  · obtain ⟨l, sfin, fd1, hload, hget, hidx, hrp, _⟩ :=
      loadFrames_restorePoint_update.2 idDecode emptyPal cinfoNone cinfoBg cinfoPrev
        rfl rfl rfl
    exact ⟨l, sfin, fd1, hload, hget, hidx, hrp⟩

/-! Claim C4: RestoreBackground disposal clears exactly the previous
frame's declared sub-rectangle. -/

/-- C4: when the previous frame's disposal method is RestoreBackground,
the compositing step succeeds, the emitted bitmap is the new frame painted
over the canvas obtained by clearing exactly the previous frame's declared
sub-rectangle, and that disposal step sets every pixel inside the
sub-rectangle to transparent while leaving every pixel outside it
unchanged. -/
theorem restoreBackground_clears_exactly_subrect
    (db : Nat → Canvas → Canvas) (rawPal : Nat → List Nat) (s : CompState)
    (i : Nat) (info p : GifFrameInfo)
    (hprev : s.prevInfo = some p) (hdisp : p.disposal = 2) :
    ∃ (fd : GifFrameData) (s1 : CompState),
      compositeStep db rawPal s i info = .ok (fd, s1) ∧
      fd.data = putImageData (db i s.scratch) info (clearRect p s.canvas) ∧
      (∀ x y, inRect p x y = true → clearRect p s.canvas x y = none) ∧
      (∀ x y, inRect p x y = false → clearRect p s.canvas x y = s.canvas x y) := by
  have hap : applyDisposal s = Except.ok (clearRect p s.canvas) := by
    simp [applyDisposal, hprev, hdisp]
  cases hstep : compositeStep db rawPal s i info with
  | error e =>
    rw [compositeStep, hap] at hstep
    cases hstep
  | ok pr =>
    rw [compositeStep, hap] at hstep
    simp only [Except.ok.injEq] at hstep
    subst hstep
    refine ⟨_, _, rfl, rfl, ?_, ?_⟩
    · intro x y hin
      simp [clearRect, hin]
    · intro x y hout
      simp [clearRect, hout]

/-- Witness for C4: applied at a concrete state whose previous frame
declares RestoreBackground. -/
theorem restoreBackground_clears_exactly_subrect_witness :
    ∃ (fd : GifFrameData) (s1 : CompState),
      compositeStep idDecode emptyPal
        { canvas := blankCanvas, scratch := blankCanvas,
          prevInfo := some cinfoBg, rp := some (sampleFrame 0 10) } 1 cinfoNone =
        .ok (fd, s1) ∧
      fd.data = putImageData (idDecode 1 blankCanvas) cinfoNone
        (clearRect cinfoBg blankCanvas) := by
  obtain ⟨fd, s1, hstep, hdata, _, _⟩ :=
    restoreBackground_clears_exactly_subrect idDecode emptyPal
      { canvas := blankCanvas, scratch := blankCanvas,
        prevInfo := some cinfoBg, rp := some (sampleFrame 0 10) } 1 cinfoNone
      cinfoBg rfl rfl
  exact ⟨fd, s1, hstep, hdata⟩

/-! Claim C8: behavior of the frame-edit toggles on an out-of-range
index. -/

/-- C8 counterexample: on the out-of-range index 1 of a one-frame edit
state, both toggle updaters throw (reading `.deleted` of `undefined`)
instead of being silent no-ops. -/
theorem toggle_out_of_range_counterexample :
    markDeleted [{ deleted := false }] 1 = .error .undefinedAccess ∧
    markUndeleted [{ deleted := false }] 1 = .error .undefinedAccess := by
  exact ⟨rfl, rfl⟩

/-- C8 amended: for every out-of-range frame index, the ArrowDown and
ArrowUp updaters fail with an undefined-property access (they are not
silent no-ops); they never return a changed state for such an index. -/
theorem toggle_out_of_range_errors (states : List FrameState) (i : Nat)
    (h : states.length ≤ i) :
    markDeleted states i = .error .undefinedAccess ∧
    markUndeleted states i = .error .undefinedAccess := by
  have hget : states.get? i = none := List.get?_eq_none.mpr h
  exact ⟨by rw [markDeleted, hget], by rw [markUndeleted, hget]⟩

/-- Witness for the amended C8 theorem at a concrete state and index. -/
theorem toggle_out_of_range_errors_witness :
    markDeleted [{ deleted := false }, { deleted := true }] 5 =
      .error .undefinedAccess ∧
    markUndeleted [{ deleted := false }, { deleted := true }] 5 =
      .error .undefinedAccess := by
  exact toggle_out_of_range_errors
    [{ deleted := false }, { deleted := true }] 5 (by decide)

/-! Claim C9: the `beginFile` assembler counter and the missing guard on
extra `addFrame` calls. -/

/-- Helper: folding frames through `Assembler.addFrame` decrements the
counter once per frame and appends one written frame per call. -/
theorem addFrames_framesRemaining_written (frames : List GifFrameData) :
    ∀ (a : Assembler),
      (a.addFrames frames).framesRemaining = a.framesRemaining - frames.length ∧
      (a.addFrames frames).written.length = a.written.length + frames.length := by
  induction frames with
  | nil => intro a; simp [Assembler.addFrames]
  | cons f rest ih =>
    intro a
    have h := ih (a.addFrame f)
    constructor
    · rw [Assembler.addFrames] at h ⊢
      simp only [List.foldl_cons] at *
      rw [h.1]
      simp [Assembler.addFrame]
      omega
    · rw [Assembler.addFrames] at h ⊢
      simp only [List.foldl_cons] at *
      rw [h.2]
      simp [Assembler.addFrame]
      omega

/-- C9 counterexample: with `frameCount` 1, `done()` is true after the
first `addFrame`, yet a second `addFrame` call is accepted as a normal
frame (the writer receives a second frame, no failure occurs) and it
drives the counter negative so that `done()` turns false again. -/
theorem assembler_overrun_counterexample :
    ((beginFile (sampleMetadata 1)).addFrame (sampleFrame 0 1)).done = true ∧
    (((beginFile (sampleMetadata 1)).addFrame (sampleFrame 0 1)).addFrame
        (sampleFrame 1 2)).written.length = 2 ∧
    (((beginFile (sampleMetadata 1)).addFrame (sampleFrame 0 1)).addFrame
        (sampleFrame 1 2)).done = false := by
  exact ⟨rfl, rfl, rfl⟩

/-- C9 amended: `done()` is true exactly when the number of `addFrame`
calls equals the declared frame count, and `addFrame` is never guarded:
every call, including calls after completion, appends one more frame to
the writer (after the n-th call the counter simply goes negative, so
`done()` is false again). -/
theorem assembler_done_iff_frameCount (metadata : GifMetadata)
    (frames : List GifFrameData) :
    (((beginFile metadata).addFrames frames).done = true ↔
      frames.length = metadata.frameCount) ∧
    ((beginFile metadata).addFrames frames).written.length = frames.length := by
  have h := addFrames_framesRemaining_written frames (beginFile metadata)
  constructor
  · rw [Assembler.done, h.1]
    simp only [beginFile]
    constructor
    · intro hz
      have : (metadata.frameCount : Int) - frames.length = 0 := by
        exact_mod_cast (beq_iff_eq.mp hz)
      omega
    · intro hz
      rw [hz]
      simp
  · rw [h.2]
    simp [beginFile]

/-! Claims C2, C6 and C7: the drop-merge loop of the `download`
callback. -/

/-- Recursive characterization of the drop-merge output when the current
survivor is `cur`: every deleted frame's delay is added onto the nearest
preceding survivor, and survivors are kept in order. -/
def mergeFrames (cur : GifFrameData) :
    List (GifFrameData × Bool) → List GifFrameData
  | [] => [cur]
  | (f, true) :: rest => mergeFrames { cur with delay := cur.delay + f.delay } rest
  | (f, false) :: rest => cur :: mergeFrames f rest

/-- Definition following the spec wording of `buildEncodeSequence`
(§4.3): maintain an accumulator of delays; a deleted frame adds its delay
to the accumulator; a surviving frame's effective delay is its own delay
plus the accumulator, which is then reset.  This is the forward-merging
rule the claim states; it is compared against the source's `download`
loop. -/
def buildEncodeSequenceSpec (acc : Nat) : List (Nat × Bool) → List Nat
  | [] => []
  | (d, true) :: rest => buildEncodeSequenceSpec (acc + d) rest
  | (d, false) :: rest => (d + acc) :: buildEncodeSequenceSpec 0 rest

/-- Helper: adding a delay onto the last element of a list ending in
`cur` rewrites just that element. -/
theorem addDelayToLast_append (d : Nat) (cur : GifFrameData) :
    ∀ (acc : List GifFrameData),
      addDelayToLast d (acc ++ [cur]) =
        acc ++ [{ cur with delay := cur.delay + d }] := by
  intro acc
  induction acc with
  | nil => rfl
  | cons a rest ih =>
    cases rest with
    | nil => rfl
    | cons b rest2 =>
      simp only [List.cons_append, List.append_eq, addDelayToLast] at ih ⊢
      rw [ih]

/-- Helper: the drop-merge loop, once at least one survivor has been
pushed, never fails and merges every deleted frame's delay backward onto
the nearest preceding survivor. -/
theorem downloadGo_append (rest : List (GifFrameData × Bool)) :
    ∀ (acc : List GifFrameData) (cur : GifFrameData),
      downloadGo (acc ++ [cur]) rest = .ok (acc ++ mergeFrames cur rest) := by
  induction rest with
  | nil => intro acc cur; simp [downloadGo, mergeFrames]
  | cons p rest ih =>
    intro acc cur
    obtain ⟨f, deleted⟩ := p
    cases deleted with
    | true =>
      have step : downloadGo (acc ++ [cur]) ((f, true) :: rest) =
          downloadGo (addDelayToLast f.delay (acc ++ [cur])) rest := by
        cases acc with
        | nil => rfl
        | cons a as => rfl
      rw [mergeFrames, step, addDelayToLast_append]
      exact ih acc { cur with delay := cur.delay + f.delay }
    | false =>
      have step : downloadGo (acc ++ [cur]) ((f, false) :: rest) =
          downloadGo ((acc ++ [cur]) ++ [f]) rest := rfl
      rw [mergeFrames, step, ih (acc ++ [cur]) f]
      simp

/-- Helper: a download whose first frame is deleted throws at once: the
very first loop iteration reads `.delay` of `undefined`. -/
theorem download_head_deleted (metadata : GifMetadata) (f : GifFrameData)
    (frames : List GifFrameData) (deleted : List Bool) :
    download metadata (f :: frames) (true :: deleted) =
      .error .deleteBeforeSurvivor := by
  rfl

/-- C2 counterexample: on delays [10, 20, 5] with only frame 1 deleted,
the spec's forward accumulator rule stated by the claim yields effective
delays [10, 25], while the source's `download` loop yields [30, 5]; the
claim's general rule therefore does not describe the code (its own
example [30, 5] matches the code but contradicts the rule). -/
theorem download_forward_rule_counterexample :
    (download (sampleMetadata 3)
        [sampleFrame 0 10, sampleFrame 1 20, sampleFrame 2 5]
        [false, true, false]).map (fun pr => pr.2.map (fun fr => fr.delay)) =
      .ok [30, 5] ∧
    buildEncodeSequenceSpec 0 [(10, false), (20, true), (5, false)] = [10, 25] ∧
    ([30, 5] : List Nat) ≠ [10, 25] := by
  exact ⟨rfl, rfl, by decide⟩

/-- C2 amended: whenever the first frame survives (so some survivor
precedes every deleted run), `download` succeeds, its output is exactly
the surviving frames in index order, and each deleted frame's delay is
merged backward onto the nearest preceding survivor (`mergeFrames`); with
delays [10, 20, 5] and only frame 1 deleted the output delays are
[30, 5]. -/
theorem download_backward_merge (metadata : GifMetadata) (f : GifFrameData)
    (frames : List GifFrameData) (deleted : List Bool)
    (hzip : (f :: frames).zip (false :: deleted) =
      (f, false) :: frames.zip deleted) :
    download metadata (f :: frames) (false :: deleted) =
      .ok ({ metadata with
               frameCount := (mergeFrames f (frames.zip deleted)).length },
           mergeFrames f (frames.zip deleted)) ∧
    (mergeFrames f (frames.zip deleted)).map (fun fr => fr.index) =
      f.index ::
        ((frames.zip deleted).filter (fun p => !p.2)).map
          (fun p => p.1.index) := by
  constructor
  · rw [download, hzip]
    have step : downloadGo [] ((f, false) :: frames.zip deleted) =
        downloadGo ([] ++ [f]) (frames.zip deleted) := rfl
    rw [step, downloadGo_append]
    simp
  · generalize frames.zip deleted = rest
    clear hzip
    induction rest generalizing f with
    | nil => simp [mergeFrames]
    | cons p rest ih =>
      obtain ⟨g, deleted2⟩ := p
      cases deleted2 with
      | true =>
        rw [mergeFrames]
        rw [ih]
        simp [List.filter]
      | false =>
        rw [mergeFrames]
        simp only [List.map_cons]
        rw [ih]
        simp [List.filter]

/-- Witness for the amended C2 theorem on the concrete [10, 20, 5] input
with frame 1 deleted: the output delays are [30, 5]. -/
theorem download_backward_merge_witness :
    download (sampleMetadata 3)
        [sampleFrame 0 10, sampleFrame 1 20, sampleFrame 2 5]
        [false, true, false] =
      .ok ({ sampleMetadata 3 with frameCount := 2 },
           mergeFrames (sampleFrame 0 10)
             [(sampleFrame 1 20, true), (sampleFrame 2 5, false)]) ∧
    (mergeFrames (sampleFrame 0 10)
        [(sampleFrame 1 20, true), (sampleFrame 2 5, false)]).map
      (fun fr => fr.delay) = [30, 5] := by
  have h := download_backward_merge (sampleMetadata 3) (sampleFrame 0 10)
    [sampleFrame 1 20, sampleFrame 2 5] [true, false] rfl
  exact ⟨h.1, rfl⟩

/-- C6 counterexample: the empty frame list (in which every frame is
vacuously marked deleted) does not fail: `download` succeeds and hands a
zero-frame encode request to `writeGifToFile`, so an encode pipeline is
started. -/
theorem download_all_deleted_empty_counterexample :
    download (sampleMetadata 0) [] [] =
      .ok (sampleMetadata 0, []) := by
  rfl

/-- C6 amended: for every nonempty frame list whose frames are all marked
deleted, `download` fails (the first iteration already reads `.delay` of
`undefined`, the failure the spec labels EmptySequence), so
`writeGifToFile` is never reached: no encode pipeline is started and no
output buffer is allocated.  The empty frame list instead succeeds with a
zero-frame encode request. -/
theorem download_all_deleted_errors (metadata : GifMetadata)
    (frames : List GifFrameData) (deleted : List Bool)
    (hne : frames ≠ []) (hlen : frames.length = deleted.length)
    (hall : ∀ b ∈ deleted, b = true) :
    download metadata frames deleted = .error .deleteBeforeSurvivor := by
  cases frames with
  | nil => exact absurd rfl hne
  | cons f fs =>
    cases deleted with
    | nil => simp at hlen
    | cons b bs =>
      have hb : b = true := hall b (List.mem_cons_self b bs)
      rw [hb]
      exact download_head_deleted metadata f fs bs

/-- Witness for the amended C6 theorem on a concrete 2-frame, all-deleted
state. -/
theorem download_all_deleted_errors_witness :
    download (sampleMetadata 2) [sampleFrame 0 10, sampleFrame 1 20]
        [true, true] = .error .deleteBeforeSurvivor := by
  exact download_all_deleted_errors (sampleMetadata 2)
    [sampleFrame 0 10, sampleFrame 1 20] [true, true]
    (List.cons_ne_nil _ _) rfl
    (by intro b hb; simp at hb; simp [hb])

/-- C7 counterexample: with delays [10, 20] and only the leading frame 0
deleted, the claim predicts a successful export whose first surviving
frame keeps its own delay 20; the code instead throws on the very first
frame and produces no output at all. -/
theorem download_leading_deleted_counterexample :
    download (sampleMetadata 2) [sampleFrame 0 10, sampleFrame 1 20]
        [true, false] = .error .deleteBeforeSurvivor := by
  rfl

/-- C7 amended: whenever the sequence begins with a deleted frame, the
drop-merge loop fails immediately with the undefined-access error (there
is no prior survivor to receive the delay), rather than discarding the
leading deleted frames' delay and exporting the survivors. -/
theorem download_leading_deleted_errors (metadata : GifMetadata)
    (f : GifFrameData) (frames : List GifFrameData) (deleted : List Bool) :
    download metadata (f :: frames) (true :: deleted) =
      .error .deleteBeforeSurvivor := by
  exact download_head_deleted metadata f frames deleted

/-! Claim C3: behavior of `encodeImage` on colors missing from the
palette. -/

/-- Helper: the ascending overwrite loop building `indexedColors` keeps
the last matching index, which is the first match of the reversed
enumerated palette. -/
theorem indexOfColor_foldl_eq (c : Nat) :
    ∀ (l : List (Nat × Nat)) (acc : Option Nat),
      l.foldl (fun a p => if p.2 = c then some p.1 else a) acc =
        ((l.reverse.find? fun p => p.2 == c).map Prod.fst).or acc := by
  intro l
  induction l with
  | nil => intro acc; simp
  | cons p l ih =>
    intro acc
    rw [List.foldl_cons, ih]
    rw [List.reverse_cons, List.find?_append]
    cases hfind : l.reverse.find? fun q => q.2 == c with
    | some q => simp [Option.or]
    | none =>
      by_cases hc : p.2 = c
      · simp [hc, Option.or]
      · simp [hc, Option.or]

/-- Helper: a color absent from the palette has no entry in
`indexedColors`. -/
theorem indexOfColor_eq_none (palette : List Nat) (c : Nat)
    (h : c ∉ palette) : indexOfColor palette c = none := by
  rw [indexOfColor, indexOfColor_foldl_eq]
  have hfind : palette.enum.reverse.find? (fun p => p.2 == c) = none := by
    rw [List.find?_eq_none]
    intro x hx hbeq
    have hxc : x.2 = c := by simpa using hbeq
    have hmem : x ∈ palette.enum := List.mem_reverse.mp hx
    have hget : palette.get? x.1 = some x.2 := List.mem_enum_iff_get?.mp hmem
    have : x.2 ∈ palette := List.get?_mem hget
    rw [hxc] at this
    exact h this
  rw [hfind]
  rfl

/-- Helper: a defined `indexedColors` entry points at a palette position
holding exactly the looked-up color. -/
theorem indexOfColor_eq_some (palette : List Nat) (c j : Nat)
    (h : indexOfColor palette c = some j) :
    palette.get? j = some c ∧ j < palette.length := by
  rw [indexOfColor, indexOfColor_foldl_eq] at h
  cases hfind : palette.enum.reverse.find? (fun p => p.2 == c) with
  | none => rw [hfind] at h; cases h
  | some q =>
    rw [hfind] at h
    have hq1 : q.1 = j := by simpa [Option.or] using h
    have hpred : q.2 = c := by
      have := List.find?_some hfind
      simpa using this
    have hmem : q ∈ palette.enum :=
      List.mem_reverse.mp (List.mem_of_find?_eq_some hfind)
    have hget : palette.get? q.1 = some q.2 := List.mem_enum_iff_get?.mp hmem
    rw [hq1, hpred] at hget
    refine ⟨hget, ?_⟩
    rcases List.get?_eq_some.mp hget with ⟨hlt, _⟩
    exact hlt

/-- Helper: a color present in the palette has a defined `indexedColors`
entry. -/
theorem indexOfColor_isSome (palette : List Nat) (c : Nat)
    (h : c ∈ palette) : ∃ j, indexOfColor palette c = some j := by
  rcases List.get_of_mem h with ⟨⟨i, hi⟩, hval⟩
  have hget : palette.get? i = some c := by
    rw [List.get?_eq_some]
    exact ⟨hi, hval⟩
  have hmem : (i, c) ∈ palette.enum := List.mk_mem_enum_iff_get?.mpr hget
  have hsome : (palette.enum.reverse.find? fun p => p.2 == c).isSome := by
    rw [List.find?_isSome]
    exact ⟨(i, c), List.mem_reverse.mpr hmem, by simp⟩
  rcases Option.isSome_iff_exists.mp hsome with ⟨q, hq⟩
  refine ⟨q.1, ?_⟩
  rw [indexOfColor, indexOfColor_foldl_eq, hq]
  rfl

/-- C3 counterexample: a single blue pixel indexed against a palette that
only holds red does not fail: `encodeImage` silently produces the full
index stream [0] (the `undefined` lookup is coerced to 0 by the
`Uint8Array` store), even though no palette entry matches the pixel. -/
theorem encodeImage_no_failure_counterexample :
    encodeImage { width := 1, height := 1, data := [(0, 0, 255, 255)] }
        [16711680] = [0] ∧
    indexOfColor [16711680] (packRGB (0, 0, 255, 255)) = none ∧
    (16711680 : Nat) ≠ packRGB (0, 0, 255, 255) := by
  exact ⟨rfl, rfl, by decide⟩

/-- C3 amended: `encodeImage` never fails.  A pixel whose packed color
has no exact palette entry is silently encoded as index 0; a pixel whose
color is present is encoded as an index holding exactly that color (the
last such index when the palette has duplicates). -/
theorem encodeImage_exact_match (image : ImageDataM) (palette : List Nat)
    (hlen : palette.length ≤ 256) :
    (∀ i p, image.data.get? i = some p → packRGB p ∉ palette →
      (encodeImage image palette).get? i = some 0) ∧
    (∀ i p, image.data.get? i = some p → packRGB p ∈ palette →
      ∃ j, (encodeImage image palette).get? i = some j ∧
        palette.get? j = some (packRGB p)) := by
  constructor
  · intro i p hp hmem
    have hnone := indexOfColor_eq_none palette (packRGB p) hmem
    rw [encodeImage, List.get?_map, hp]
    simp [hnone]
  · intro i p hp hmem
    rcases indexOfColor_isSome palette (packRGB p) hmem with ⟨j, hj⟩
    rcases indexOfColor_eq_some palette (packRGB p) j hj with ⟨hget, hlt⟩
    refine ⟨j, ?_, hget⟩
    rw [encodeImage, List.get?_map, hp]
    simp [hj, Nat.mod_eq_of_lt (lt_of_lt_of_le hlt hlen)]

/-- Witness for the amended C3 theorem: a red pixel against a palette
holding blue then red maps to index 1, the entry holding exactly its
color; a green pixel against the same palette maps to index 0. -/
theorem encodeImage_exact_match_witness :
    (encodeImage { width := 1, height := 1, data := [(0, 255, 0, 255)] }
        [255, 16711680]).get? 0 = some 0 ∧
    ∃ j, (encodeImage { width := 1, height := 1, data := [(255, 0, 0, 255)] }
        [255, 16711680]).get? 0 = some j ∧
      [255, 16711680].get? j = some (packRGB (255, 0, 0, 255)) := by
  constructor
  · exact (encodeImage_exact_match
      { width := 1, height := 1, data := [(0, 255, 0, 255)] }
      [255, 16711680] (by decide)).1 0 (0, 255, 0, 255) rfl (by decide)
  · exact (encodeImage_exact_match
      { width := 1, height := 1, data := [(255, 0, 0, 255)] }
      [255, 16711680] (by decide)).2 0 (255, 0, 0, 255) rfl (by decide)

/-! Claim C5: the `NoRestorePoint` failure of `loadFrames` in
`src/gif/utils.ts`. -/

/-- Invariant of the `utils.ts` compositor loop: once `prevFrameInfo` is
set (that is, after frame 0), a restore point exists, because the
post-frame update takes the null branch at frame 0 unconditionally. -/
def rpInvariant (s : CompState) : Prop := s.prevInfo.isSome → s.rp.isSome

/-- Helper: from a state satisfying the invariant, one compositing step
always succeeds and preserves the invariant. -/
theorem compositeStep_ok (db : Nat → Canvas → Canvas) (rawPal : Nat → List Nat)
    (s : CompState) (i : Nat) (info : GifFrameInfo) (h : rpInvariant s) :
    ∃ fd s1, compositeStep db rawPal s i info = .ok (fd, s1) ∧ rpInvariant s1 := by
  have hap : ∃ c1, applyDisposal s = .ok c1 := by
    rcases hprev : s.prevInfo with _ | p
    · exact ⟨s.canvas, by simp [applyDisposal, hprev]⟩
    · rcases hd : p.disposal with _ | _ | _ | _ | n
      · exact ⟨s.canvas, by simp [applyDisposal, hprev, hd]⟩
      · exact ⟨s.canvas, by simp [applyDisposal, hprev, hd]⟩
      · exact ⟨clearRect p s.canvas, by simp [applyDisposal, hprev, hd]⟩
      · have hsome : s.rp.isSome := h (by rw [hprev]; rfl)
        rcases Option.isSome_iff_exists.mp hsome with ⟨r, hr⟩
        exact ⟨drawImage r.data s.canvas, by simp [applyDisposal, hprev, hd, hr]⟩
      · exact ⟨s.canvas, by simp [applyDisposal, hprev, hd]⟩
  rcases hap with ⟨c1, hc1⟩
  cases hstep : compositeStep db rawPal s i info with
  | error e =>
    rw [compositeStep, hc1] at hstep
    cases hstep
  | ok pr =>
    obtain ⟨fd, s1⟩ := pr
    refine ⟨fd, s1, rfl, ?_⟩
    rw [compositeStep, hc1] at hstep
    simp only [Except.ok.injEq, Prod.mk.injEq] at hstep
    intro _
    rw [← hstep.2]
    by_cases hcond : (s.rp.isNone || info.disposal != 3) = true
    · simp [hcond]
    · simp only [hcond]
      simp only [Bool.or_eq_true, not_or] at hcond
      simp only [Bool.not_eq_true, Option.isNone_eq_false_iff] at hcond
      rcases Option.isSome_iff_exists.mp hcond.1 with ⟨r, hr⟩
      simp [hr]

/-- Helper: from any state satisfying the invariant, the whole loop runs
to completion without error. -/
theorem loadFramesAux_isOk (infos : List GifFrameInfo) :
    ∀ (db : Nat → Canvas → Canvas) (rawPal : Nat → List Nat) (i : Nat)
      (s : CompState), rpInvariant s →
      ∃ l s1, loadFramesAux db rawPal i s infos = .ok (l, s1) := by
  induction infos with
  | nil => intro db rawPal i s _; exact ⟨[], s, rfl⟩
  | cons info rest ih =>
    intro db rawPal i s h
    rcases compositeStep_ok db rawPal s i info h with ⟨fd, s1, hstep, h1⟩
    rcases ih db rawPal (i + 1) s1 h1 with ⟨l, s2, hrest⟩
    refine ⟨fd :: l, s2, ?_⟩
    simp only [loadFramesAux, hstep, hrest]

/-- C5 counterexample: on a malformed file whose frame 0 itself declares
RestorePrevious, the compositor does not abort: both frames are produced
(frame 0 becomes the restore point through the null check regardless of
its disposal method). -/
theorem loadFrames_frame0_restorePrevious_counterexample :
    (loadFrames idDecode emptyPal [cinfoPrev, cinfoNone]).map
      (List.map fun f => f.index) = .ok [0, 1] := by
  rfl

/-- C5 amended: the `NoRestorePoint` error branch exists exactly where
the claim says (a RestorePrevious predecessor with no restore point), but
it is unreachable from the initial state: after frame 0 the restore point
is always set, so `loadFrames` never fails, not even on a file whose
frame 0 declares RestorePrevious. -/
theorem loadFrames_never_noRestorePoint :
    (∀ (s : CompState) (p : GifFrameInfo), s.prevInfo = some p →
      p.disposal = 3 → s.rp = none →
      applyDisposal s = .error .noRestorePoint)
    ∧ ∀ (db : Nat → Canvas → Canvas) (rawPal : Nat → List Nat)
        (infos : List GifFrameInfo),
        ∃ l, loadFrames db rawPal infos = .ok l := by
  constructor
  · intro s p hprev hdisp hrp
    simp [applyDisposal, hprev, hdisp, hrp]
  · intro db rawPal infos
    rcases loadFramesAux_isOk infos db rawPal 0 initState (by intro h; cases h) with
      ⟨l, s1, h⟩
    exact ⟨l, by rw [loadFrames, h]; rfl⟩

/-- Witness for the amended C5 theorem: the error branch taken at a
concrete stuck state, and a concrete successful run. -/
theorem loadFrames_never_noRestorePoint_witness :
    applyDisposal
      { canvas := blankCanvas, scratch := blankCanvas,
        prevInfo := some cinfoPrev, rp := none } = .error .noRestorePoint ∧
    ∃ l, loadFrames idDecode emptyPal [cinfoNone, cinfoPrev] = .ok l := by
  exact ⟨loadFrames_never_noRestorePoint.1 _ cinfoPrev rfl rfl rfl,
    loadFrames_never_noRestorePoint.2 idDecode emptyPal [cinfoNone, cinfoPrev]⟩

/-! Claim C10: the two compositor variants agree frame by frame. -/

/-- Simulation invariant between the `utils.ts` loop state and the
`src/gif.ts` loop state before processing frame `i`: the canvases,
scratch buffers and previous descriptors coincide, the incrementally
maintained restore point equals the last filtered restore candidate of
the result array, and both the restore point and the previous descriptor
are absent exactly before frame 0. -/
def compInv (s : CompState) (t : GifTsState) (i : Nat) : Prop :=
  s.canvas = t.canvas ∧ s.scratch = t.scratch ∧ s.prevInfo = t.prevInfo ∧
  s.rp = ((restoreCandidates t.result).getLast?).map projTs ∧
  s.rp.isNone = (i == 0) ∧ s.prevInfo.isNone = (i == 0)

/-- Helper: projecting the result entry built by the `src/gif.ts` loop
yields exactly the frame record built by the `utils.ts` loop. -/
theorem projTs_mk (info : GifFrameInfo) (i : Nat) (c : Canvas) (pal : List Nat) :
    projTs
      { info := info, index := i, data := c,
        paletteLocal := if info.has_local_palette then some pal else none,
        paletteGlobal := if info.has_local_palette then none else some pal } =
      { index := i, delay := info.delay, data := c,
        isPaletteGlobal := !info.has_local_palette, palette := pal } := by
  by_cases hl : info.has_local_palette <;> simp [projTs, hl]

/-- Helper: one step of each compositor from invariant-related states
succeeds on both sides, emits the same frame (up to projection), and
re-establishes the invariant. -/
theorem step_equiv (db : Nat → Canvas → Canvas) (rawPal : Nat → List Nat)
    (i : Nat) (info : GifFrameInfo) :
    ∀ (s : CompState) (t : GifTsState), compInv s t i →
      ∃ (fd : GifFrameData) (s1 : CompState) (t1 : GifTsState),
        compositeStep db rawPal s i info = .ok (fd, s1) ∧
        gifTsStep db rawPal t i info = .ok t1 ∧
        t1.result.map projTs = t.result.map projTs ++ [fd] ∧
        compInv s1 t1 (i + 1) := by
  rintro ⟨sc, ss, sp, sr⟩ ⟨tc, ts, tp, tres⟩ ⟨hc, hs, hp, hrp, hrpn, hpn⟩
  dsimp only at hc hs hp hrp hrpn hpn
  subst hc
  subst hs
  subst hp
  have hap : ∃ c1,
      applyDisposal ⟨sc, ss, sp, sr⟩ = .ok c1 ∧
      gifTsApplyDisposal ⟨sc, ss, sp, tres⟩ = .ok c1 := by
    rcases hprev : sp with _ | p
    · exact ⟨sc, by simp [applyDisposal], by simp [gifTsApplyDisposal]⟩
    · rcases hd : p.disposal with _ | _ | _ | _ | n
      · exact ⟨sc, by simp [applyDisposal, hd], by simp [gifTsApplyDisposal, hd]⟩
      · exact ⟨sc, by simp [applyDisposal, hd], by simp [gifTsApplyDisposal, hd]⟩
      · exact ⟨clearRect p sc, by simp [applyDisposal, hd],
          by simp [gifTsApplyDisposal, hd]⟩
      · have hi : (i == 0) = false := by rw [← hpn, hprev]; rfl
        have hrps : sr.isNone = false := by rw [hrpn, hi]
        rcases hr : sr with _ | r
        · rw [hr] at hrps; cases hrps
        · rw [hr] at hrp
          cases hq : (restoreCandidates tres).getLast? with
          | none => rw [hq] at hrp; cases hrp
          | some q =>
            rw [hq] at hrp
            have hrq : r = projTs q := by simpa using hrp
            refine ⟨drawImage r.data sc, by simp [applyDisposal, hd, hr], ?_⟩
            simp [gifTsApplyDisposal, hd, hq, hrq, projTs]
      · exact ⟨sc, by simp [applyDisposal, hd], by simp [gifTsApplyDisposal, hd]⟩
  rcases hap with ⟨c1, hc1, hc2⟩
  cases hstep : compositeStep db rawPal ⟨sc, ss, sp, sr⟩ i info with
  | error e => rw [compositeStep, hc1] at hstep; cases hstep
  | ok pr =>
    obtain ⟨fd, s1⟩ := pr
    cases htstep : gifTsStep db rawPal ⟨sc, ss, sp, tres⟩ i info with
    | error e => rw [gifTsStep, hc2] at htstep; cases htstep
    | ok t1 =>
      rw [compositeStep, hc1] at hstep
      rw [gifTsStep, hc2] at htstep
      simp only [Except.ok.injEq, Prod.mk.injEq] at hstep htstep
      refine ⟨fd, s1, t1, rfl, rfl, ?_, ?_⟩
      · rw [← htstep, ← hstep.1]
        rw [List.map_append]
        simp only [List.map_cons, List.map_nil]
        rw [projTs_mk]
      · rw [← hstep.2, ← htstep]
        refine ⟨rfl, rfl, rfl, ?_, ?_, ?_⟩
        · dsimp only
          rw [restoreCandidates, List.filter_append, ← restoreCandidates]
          rw [hrpn]
          by_cases hpass : ((i == 0) || info.disposal != 3) = true
          · rw [hpass]
            simp only [if_true]
            have hfil :
                List.filter
                  (fun f => f.index == 0 || f.info.disposal != 3)
                  [({ info := info, index := i, data := putImageData (db i ss) info c1,
                      paletteLocal :=
                        if info.has_local_palette then
                          some (convertPalette (rawPal i)) else none,
                      paletteGlobal :=
                        if info.has_local_palette then none
                        else some (convertPalette (rawPal i)) } : GifTsFrameData)] =
                  [{ info := info, index := i, data := putImageData (db i ss) info c1,
                     paletteLocal :=
                       if info.has_local_palette then
                         some (convertPalette (rawPal i)) else none,
                     paletteGlobal :=
                       if info.has_local_palette then none
                       else some (convertPalette (rawPal i)) }] := by
              simp [List.filter_cons, hpass]
            rw [hfil, List.getLast?_concat]
            simp only [Option.map_some']
            rw [projTs_mk]
          · have hc0 : ((i == 0) || info.disposal != 3) = false :=
              eq_false_of_ne_true hpass
            rw [hc0]
            simp only [Bool.false_eq_true, if_false]
            have hfil :
                List.filter
                  (fun f => f.index == 0 || f.info.disposal != 3)
                  [({ info := info, index := i, data := putImageData (db i ss) info c1,
                      paletteLocal :=
                        if info.has_local_palette then
                          some (convertPalette (rawPal i)) else none,
                      paletteGlobal :=
                        if info.has_local_palette then none
                        else some (convertPalette (rawPal i)) } : GifTsFrameData)] =
                  [] := by
              simp [List.filter_cons, hc0]
            rw [hfil, List.append_nil]
            exact hrp
        · dsimp only
          rw [hrpn]
          by_cases hpass : ((i == 0) || info.disposal != 3) = true
          · simp [hpass]
          · have hcond : ((i == 0) || info.disposal != 3) = false :=
              eq_false_of_ne_true hpass
            rw [hcond]
            simp only [Bool.false_eq_true, if_false]
            rw [hrpn]
            rcases Bool.or_eq_false_iff.mp hcond with ⟨h1, _⟩
            rw [h1]
            simp
        · simp

/-- Helper: from invariant-related states, the two loops produce the same
frame sequence up to projection (with the `gif.ts` accumulator already
holding the frames emitted so far). -/
theorem loadFramesAux_equiv (infos : List GifFrameInfo) :
    ∀ (db : Nat → Canvas → Canvas) (rawPal : Nat → List Nat) (i : Nat)
      (s : CompState) (t : GifTsState), compInv s t i →
      (loadFramesTsAux db rawPal i t infos).map (List.map projTs) =
        (loadFramesAux db rawPal i s infos).map
          (fun pr => t.result.map projTs ++ pr.1) := by
  induction infos with
  | nil => intro db rawPal i s t _; simp [loadFramesTsAux, loadFramesAux, Except.map]
  | cons info rest ih =>
    intro db rawPal i s t h
    rcases step_equiv db rawPal i info s t h with ⟨fd, s1, t1, hstep, htstep, hres, hinv⟩
    have hrec := ih db rawPal (i + 1) s1 t1 hinv
    simp only [loadFramesTsAux, htstep, loadFramesAux, hstep]
    rw [hrec]
    cases haux : loadFramesAux db rawPal (i + 1) s1 rest with
    | error e => rfl
    | ok pr =>
      simp only [Except.map]
      rw [hres]
      simp

/-- C10: the two coexisting compositors agree: the filter-based
restore-point selection of `src/gif.ts` picks the same frame as the
incrementally maintained restore point of `src/gif/utils.ts`, so on
identical codec outputs the two `loadFrames` variants produce identical
frame sequences (same composited canvas, index, delay and palette for
every frame, and the same success/failure behavior). -/
theorem loadFrames_variants_agree (db : Nat → Canvas → Canvas)
    (rawPal : Nat → List Nat) (infos : List GifFrameInfo) :
    (loadFramesTs db rawPal infos).map (List.map projTs) =
      loadFrames db rawPal infos := by
  have h := loadFramesAux_equiv infos db rawPal 0 initState initTsState
    ⟨rfl, rfl, rfl, rfl, rfl, rfl⟩
  rw [loadFramesTs, h, loadFrames]
  cases loadFramesAux db rawPal 0 initState infos with
  | error e => rfl
  | ok pr => simp [initTsState]

end GifEditor
